import Mathlib

/-!
Verification of the comparison engine of `github-release-stats`
(`src/github-release-stats.ts` and the chart component in
`src/components/chart-display.ts`).

The TypeScript code is shallowly embedded:

* JS `Map` objects (insertion ordered) are association lists
  `List (String × α)` with `mapSet` / `mapGet` / `mapDelete` / `mapHas`
  mirroring `Map.prototype.set/get/delete/has`.
* Millisecond timestamps (`new Date(s).getTime()`) are modelled as `Int`
  values carried directly by the events; the date parsing of the transport
  layer is outside the engine.
* `this.localize.t(key)` returns an opaque localized string; it is modelled
  by the key itself (the engine only ever stores and compares these
  messages, never inspects them).
* JS `Array.prototype.sort(cmp)` is a stable sort producing an order
  compatible with the comparator; it is modelled by the stable
  `List.insertionSort` with the relation `cmp a b ≤ 0` (all stable sorts
  agree when the comparator induces a total preorder, as every comparator
  below does).
* JS string primitives used by the engine (`includes`, `replace(/"/g, ..)`,
  `trim`, `split`, `<`) are modelled character-listwise so that they
  compute; `<` is the UTF-16 lexicographic comparison restricted to
  Unicode scalar values, and `trim` strips the ASCII whitespace JS strips
  (the engine never feeds it the exotic-whitespace cases where JS differs).
* `async`/`await` orchestration: each engine operation runs to completion
  with its network outcome supplied as an explicit argument
  (`Option result`, `none` being a rejected promise caught by the
  corresponding `catch` block).
-/

namespace GRS

/-- A repository reference as held in `this._repos`:
`{ username: string; repository: string }`. -/
structure RepoRef where
  username : String
  repository : String
deriving DecidableEq, Repr

/-- The canonical identifier `` `${username}/${repository}` `` used as map key
and display-order entry throughout the source. -/
def repoIdentifier (r : RepoRef) : String :=
  r.username ++ "/" ++ r.repository

/-- A release asset: `{ size, download_count }` (fields used by the engine). -/
structure ReleaseAsset where
  size : Int
  download_count : Int
deriving DecidableEq, Repr

/-- A release record: fields of the GitHub release payload used by the
engine (`tag_name`, `published_at`, `assets`). `published_at` is `null` for
drafts, modelled as `none`; the empty string is JS-falsy and also excluded
by the `!!r.published_at` filter. -/
structure GitHubRelease where
  tag_name : String
  published_at : Option String
  assets : List ReleaseAsset
deriving DecidableEq, Repr

/-- Repo-details payload fields used by `_fetchDataForRepos`. -/
structure RepoDetails where
  stargazers_count : Int
  pushed_at : String
  size : Int
  open_issues_count : Int
deriving DecidableEq, Repr

/-- `RepoSummary` row from `components/summary-table.ts` (the revision with
the `openIssues` column used by `_fetchDataForRepos`). -/
structure RepoSummary where
  identifier : String
  stars : Int
  latestVersion : String
  lastUpdate : String
  size : Int
  totalDownloads : Int
  openIssues : Int
deriving DecidableEq, Repr

/-- `SortKey = keyof Omit<RepoSummary, 'identifier'> | 'manual'`. -/
inductive SortKey where
  | stars
  | latestVersion
  | lastUpdate
  | size
  | totalDownloads
  | openIssues
  | manual
deriving DecidableEq, Repr

/-- `'asc' | 'desc'`. -/
inductive SortDirection where
  | asc
  | desc
deriving DecidableEq, Repr

/-- An issue event `{ created_at, closed_at }` with timestamps as numbers
(`new Date(s).getTime()`), `closed_at: null` modelled as `none`. -/
structure IssueEvent where
  created_at : Int
  closed_at : Option Int
deriving DecidableEq, Repr

/-! ### JS `Map` model (insertion-ordered association list) -/

/-- `Map.prototype.has`. -/
def mapHas {α : Type} (m : List (String × α)) (k : String) : Bool :=
  m.any (fun p => p.1 == k)

/-- `Map.prototype.set`: updates the existing entry in place or appends a
new entry at the end, as a JS `Map` does. -/
def mapSet {α : Type} (m : List (String × α)) (k : String) (v : α) :
    List (String × α) :=
  if mapHas m k then m.map (fun p => if p.1 == k then (k, v) else p)
  else m ++ [(k, v)]

/-- `Map.prototype.get` (`undefined` is `none`). -/
def mapGet {α : Type} (m : List (String × α)) (k : String) : Option α :=
  (m.find? (fun p => p.1 == k)).map (·.2)

/-- `Map.prototype.delete` (result map). -/
def mapDelete {α : Type} (m : List (String × α)) (k : String) :
    List (String × α) :=
  m.filter (fun p => p.1 != k)

/-! ### Engine state

The `@state()` fields of the `GithubReleaseStats` element that belong to the
comparison engine. Star events are carried as their millisecond
timestamps (`starred_at` parsed); issue events as `IssueEvent`. -/

structure EngineState where
  repos : List RepoRef
  releasesData : List (String × List GitHubRelease)
  downloadsData : List (String × Int)
  stargazersData : List (String × List Int)
  issuesData : List (String × List IssueEvent)
  repoSummaryData : List RepoSummary
  repoOrder : List String
  sortKey : SortKey
  sortDirection : SortDirection
  chartMetric : SortKey
  loading : Bool
  error : String
  authError : String
  githubToken : String
  savedSets : List (String × List String)
deriving DecidableEq, Repr

/-- The initial field values of the element. -/
def initialState : EngineState where
  repos := []
  releasesData := []
  downloadsData := []
  stargazersData := []
  issuesData := []
  repoSummaryData := []
  repoOrder := []
  sortKey := .totalDownloads
  sortDirection := .desc
  chartMetric := .totalDownloads
  loading := false
  error := ""
  authError := ""
  githubToken := ""
  savedSets := []

/-! ### `_fetchDataForRepos` (primary batch fetch) -/

/-- One settled `Promise.all([releasesPromise, repoDetailsPromise])` pair. -/
structure FetchPair where
  releasesResponse : List GitHubRelease
  repoDetails : RepoDetails
deriving DecidableEq, Repr

/-- JS truthiness of `r.published_at` (`!!r.published_at`). -/
def truthyPublishedAt : Option String → Bool
  | none => false
  | some s => s != ""

/-- `releases.reduce((total, release) => total + release.assets.reduce(
(sum, asset) => sum + asset.download_count, 0), 0)`. -/
def totalDownloadsOf (releases : List GitHubRelease) : Int :=
  (releases.map (fun rel => (rel.assets.map (·.download_count)).sum)).sum

/-- `releases[0]?.tag_name || this.localize.t('common.notAvailable')`. -/
def latestVersionOf (releases : List GitHubRelease) : String :=
  match releases.head? with
  | some rel => if rel.tag_name == "" then "common.notAvailable" else rel.tag_name
  | none => "common.notAvailable"

/-- The per-repo work of the `results.forEach` body: filters out releases
without `published_at`, computes the download total, and builds the
summary row. -/
def processResult (pr : FetchPair × RepoRef) :
    String × List GitHubRelease × Int × RepoSummary :=
  let id := repoIdentifier pr.2
  let releases := pr.1.releasesResponse.filter (fun r => truthyPublishedAt r.published_at)
  let td := totalDownloadsOf releases
  (id, releases, td,
    { identifier := id
      stars := pr.1.repoDetails.stargazers_count
      latestVersion := latestVersionOf releases
      lastUpdate := pr.1.repoDetails.pushed_at
      size := pr.1.repoDetails.size
      totalDownloads := td
      openIssues := pr.1.repoDetails.open_issues_count })

/-- `_fetchDataForRepos`, lines 1552-1621.  `outcome` is the settled
`Promise.all(fetchPromises)`: `some results` on success (one `FetchPair` per
repo, correlated by index — `results.forEach((.., index) => { const repo =
this._repos[index]; if (repo) ... })` is the index-correlated `zip`),
`none` when any request rejected.  On success the four pieces of state are
replaced wholesale; on failure only `_error` is set; `_loading` is cleared
in `finally` on both paths. -/
def fetchDataForRepos (s : EngineState)
    (outcome : Option (List FetchPair)) : EngineState :=
  match outcome with
  | none =>
    { s with loading := false, error := "errors.fetchRepoData" }
  | some results =>
    let entries := (results.zip s.repos).map processResult
    { s with
      releasesData := entries.foldl (fun m e => mapSet m e.1 e.2.1) []
      downloadsData := entries.foldl (fun m e => mapSet m e.1 e.2.2.1) []
      repoSummaryData := entries.map (fun e => e.2.2.2)
      repoOrder := s.repos.map repoIdentifier
      loading := false
      error := "" }

/-! ### Form submit, remove, manual reorder, clear -/

/-- `_handleFormSubmit` (lines 1674-1697) together with the
`_fetchDataForRepos` invocation it triggers (whose settled outcome is the
`outcome` argument).  Empty username/repository and duplicates are rejected
before any state change; a duplicate does not trigger a fetch. -/
def handleFormSubmit (s : EngineState) (newUsername newRepository : String)
    (outcome : Option (List FetchPair)) : EngineState :=
  if newUsername == "" || newRepository == "" then s
  else if s.repos.any (fun r =>
      r.username == newUsername && r.repository == newRepository) then s
  else
    fetchDataForRepos
      { s with repos := s.repos ++ [⟨newUsername, newRepository⟩] } outcome

/-- `_handleRemoveRepo` (lines 1699-1720). -/
def handleRemoveRepo (s : EngineState) (repoToRemove : RepoRef) : EngineState :=
  let id := repoIdentifier repoToRemove
  { s with
    repos := s.repos.filter (fun r => repoIdentifier r != id)
    repoOrder := s.repoOrder.filter (fun x => x != id)
    releasesData := mapDelete s.releasesData id
    downloadsData := mapDelete s.downloadsData id
    stargazersData := mapDelete s.stargazersData id
    issuesData := mapDelete s.issuesData id
    repoSummaryData := s.repoSummaryData.filter (fun d => d.identifier != id) }

/-- `_setNewOrder` (drag-reorder commit): replaces `_repoOrder` and sets
`_sortKey` to `'manual'`. -/
def setNewOrder (s : EngineState) (newOrder : List String) : EngineState :=
  { s with repoOrder := newOrder, sortKey := .manual }

/-- The `clearAction` of `_handleClearAllRepos` (the confirmed branch). -/
def handleClearAllRepos (s : EngineState) : EngineState :=
  { s with
    repos := []
    releasesData := []
    downloadsData := []
    stargazersData := []
    issuesData := []
    repoSummaryData := []
    repoOrder := []
    error := ""
    authError := "" }

/-! ### JS string primitives (character-list models) -/

/-- JS `a < b` on strings: lexicographic by code unit. -/
def charListLt : List Char → List Char → Bool
  | [], [] => false
  | [], _ :: _ => true
  | _ :: _, [] => false
  | a :: as, b :: bs =>
    if a.val < b.val then true
    else if b.val < a.val then false
    else charListLt as bs

/-- JS `a < b` for two strings. -/
def jsStrLt (a b : String) : Bool :=
  charListLt a.data b.data

/-- JS `s.includes(c)` for a single-character needle. -/
def jsIncludes (s : String) (c : Char) : Bool :=
  s.data.contains c

/-- JS `s.trim()` (whitespace stripped from both ends). -/
def jsTrim (s : String) : String :=
  String.mk ((s.data.dropWhile Char.isWhitespace).reverse.dropWhile
    Char.isWhitespace).reverse

/-! ### Saved sets -/

/-- `'a/b'.split('/')` on character lists (JS `String.prototype.split` with
a single-character separator). -/
def splitChar (c : Char) : List Char → List (List Char)
  | [] => [[]]
  | x :: xs =>
    let rest := splitChar c xs
    if x == c then [] :: rest
    else
      match rest with
      | [] => [[x]]
      | h :: t => (x :: h) :: t

/-- `const [username, repository] = r.split('/'); return username &&
repository ? { username, repository } : null`.  Missing components are
`undefined`, falsy like the empty string. -/
def parseRepo (s : String) : Option RepoRef :=
  let parts := (splitChar '/' s.data).map (fun l => String.mk l)
  let username := parts.getD 0 ""
  let repository := parts.getD 1 ""
  if username != "" && repository != "" then some ⟨username, repository⟩
  else none

/-- `_handleSaveSetConfirm` (lines 1890-1902): trims the input, ignores an
empty name, stores the identifiers of `this._repos` (not `_repoOrder`)
under the name, object-spread update = in-place map update. -/
def handleSaveSetConfirm (s : EngineState) (inputValue : String) : EngineState :=
  let setName := jsTrim inputValue
  if setName == "" then s
  else
    { s with
      savedSets := mapSet s.savedSets setName (s.repos.map repoIdentifier) }

/-- `_handleLoadSet` (lines 1904-1919) together with the triggered
`_fetchDataForRepos` (settled outcome supplied). -/
def handleLoadSet (s : EngineState) (setName : String)
    (outcome : Option (List FetchPair)) : EngineState :=
  match mapGet s.savedSets setName with
  | none => s
  | some repoIdentifiers =>
    fetchDataForRepos
      { s with repos := repoIdentifiers.filterMap parseRepo } outcome

/-- `_handleDeleteSet` confirmed branch. -/
def handleDeleteSet (s : EngineState) (setName : String) : EngineState :=
  { s with savedSets := s.savedSets.filter (fun p => p.1 != setName) }

/-- `_updateAuthToken` (state-machine part): replaces the token and, when
repos are present, triggers a primary refetch. -/
def updateAuthToken (s : EngineState) (token : String)
    (outcome : Option (List FetchPair)) : EngineState :=
  let s1 := { s with githubToken := token }
  if s1.repos.isEmpty then s1 else fetchDataForRepos s1 outcome

/-! ### `_handleRequestSort` -/

/-- `valA < valB` for `a[newSortKey] < b[newSortKey]` (number fields compare
numerically, string fields lexicographically as in JS). -/
def fieldLt (key : SortKey) (a b : RepoSummary) : Bool :=
  match key with
  | .stars => a.stars < b.stars
  | .latestVersion => jsStrLt a.latestVersion b.latestVersion
  | .lastUpdate => jsStrLt a.lastUpdate b.lastUpdate
  | .size => a.size < b.size
  | .totalDownloads => a.totalDownloads < b.totalDownloads
  | .openIssues => a.openIssues < b.openIssues
  | .manual => false

/-- The comparator of the `.sort` call returns `≤ 0` exactly when this
holds; a stable JS sort with that comparator is `mergeSort` with this
relation.  (`asc`: comparator ≤ 0 iff `¬(valA > valB)`; `desc`: negated
comparator ≤ 0 iff `¬(valA < valB)`.) -/
def sortLe (key : SortKey) (dir : SortDirection) (a b : RepoSummary) : Bool :=
  match dir with
  | .asc => !(fieldLt key b a)
  | .desc => !(fieldLt key a b)

/-- `newSortKey === 'latestVersion' || newSortKey === 'lastUpdate' ? 'asc'
: 'desc'`. -/
def defaultDirection (key : SortKey) : SortDirection :=
  match key with
  | .latestVersion => .asc
  | .lastUpdate => .asc
  | _ => .desc

/-- The `newSortDirection` computation: clicking the active key toggles,
a different key gets its default direction. -/
def nextSortDirection (s : EngineState) (key : SortKey) : SortDirection :=
  if s.sortKey == key then
    match s.sortDirection with
    | .asc => SortDirection.desc
    | .desc => SortDirection.asc
  else defaultDirection key

/-- Result of `_handleRequestSort`: the final state plus, as observable
effects, the identifiers for which a supplemental star / issue fetch was
issued. -/
structure SortOutcome where
  state : EngineState
  starFetchedIds : List String
  issueFetchedIds : List String
deriving DecidableEq, Repr

/-- `_handleRequestSort` (lines 1730-1837).  `starOutcome` /
`issueOutcome` are the settled `Promise.all` of the supplemental fetches
(correlated by index with the fetched repos; `none` = rejection caught by
the `catch`); they are consulted only when the corresponding branch
actually fetches. -/
def handleRequestSort (s0 : EngineState) (newSortKey : SortKey)
    (starOutcome : Option (List (List Int)))
    (issueOutcome : Option (List (List IssueEvent))) : SortOutcome :=
  let s := { s0 with authError := "" }
  if (newSortKey == .stars || newSortKey == .openIssues)
      && s.githubToken == "" then
    ⟨{ s with authError := "errors.authRequired" }, [], []⟩
  else if newSortKey == .manual then ⟨s, [], []⟩
  else
    let newSortDirection := nextSortDirection s newSortKey
    let sorted := s.repoSummaryData.insertionSort
      (fun a b => sortLe newSortKey newSortDirection a b = true)
    let s1 :=
      { s with
        sortKey := newSortKey
        sortDirection := newSortDirection
        chartMetric := newSortKey
        repoOrder := sorted.map (·.identifier) }
    if newSortKey == .stars then
      let reposToFetch := s1.repos.filter (fun repo =>
        !(mapHas s1.stargazersData (repoIdentifier repo)))
      if reposToFetch.isEmpty then ⟨s1, [], []⟩
      else
        match starOutcome with
        | some results =>
          let merged := (results.zip reposToFetch).foldl
            (fun m pr => mapSet m (repoIdentifier pr.2) pr.1)
            s1.stargazersData
          ⟨{ s1 with stargazersData := merged, loading := false },
            reposToFetch.map repoIdentifier, []⟩
        | none =>
          ⟨{ s1 with error := "errors.fetchStarHistory", loading := false },
            reposToFetch.map repoIdentifier, []⟩
    else if newSortKey == .openIssues then
      let reposToFetch := s1.repos.filter (fun repo =>
        !(mapHas s1.issuesData (repoIdentifier repo)))
      if reposToFetch.isEmpty then ⟨s1, [], []⟩
      else
        match issueOutcome with
        | some results =>
          let merged := (results.zip reposToFetch).foldl
            (fun m pr => mapSet m (repoIdentifier pr.2) pr.1)
            s1.issuesData
          ⟨{ s1 with issuesData := merged, loading := false }, [],
            reposToFetch.map repoIdentifier⟩
        | none =>
          ⟨{ s1 with error := "errors.fetchIssueHistory", loading := false },
            [], reposToFetch.map repoIdentifier⟩
    else ⟨s1, [], []⟩

/-! ### The engine as a state machine -/

/-- The inbound intents of the engine, each carrying the settled outcome of
any network activity it triggers. -/
inductive Op where
  | submit (newUsername newRepository : String) (outcome : Option (List FetchPair))
  | remove (repo : RepoRef)
  | requestSort (key : SortKey) (starOutcome : Option (List (List Int)))
      (issueOutcome : Option (List (List IssueEvent)))
  | manualOrder (newOrder : List String)
  | clearAll
  | saveSet (name : String)
  | loadSet (name : String) (outcome : Option (List FetchPair))
  | deleteSet (name : String)
  | setToken (token : String) (outcome : Option (List FetchPair))

/-- One engine transition. -/
def step (s : EngineState) (op : Op) : EngineState :=
  match op with
  | .submit u r outcome => handleFormSubmit s u r outcome
  | .remove repo => handleRemoveRepo s repo
  | .requestSort key so io => (handleRequestSort s key so io).state
  | .manualOrder l => setNewOrder s l
  | .clearAll => handleClearAllRepos s
  | .saveSet n => handleSaveSetConfirm s n
  | .loadSet n outcome => handleLoadSet s n outcome
  | .deleteSet n => handleDeleteSet s n
  | .setToken tok outcome => updateAuthToken s tok outcome

/-- Run an operation sequence from the initial state. -/
def run (ops : List Op) : EngineState :=
  ops.foldl step initialState

/-! ### Chart transforms (`chart-display.ts`) -/

/-- The cumulative star series of `_getStarChartConfig` for one repo:
sort events ascending by timestamp (stable JS sort), then
`cumulativeStars++` per event.  Star events are their millisecond
timestamps. -/
def starChartSeries (starEvents : List Int) : List (Int × Int) :=
  let sortedEvents := starEvents.insertionSort (· ≤ ·)
  sortedEvents.enum.map (fun p => (p.2, (p.1 : Int) + 1))

/-- The final value of `eventsByTime.get(t)` in `_getIssueChartConfig`:
every issue adds `+1` at its `created_at` and `-1` at a non-null
`closed_at`, so the net stored delta at `t` is the count of creations at
`t` minus the count of closures at `t`. -/
def issueDelta (issues : List IssueEvent) (t : Int) : Int :=
  ((issues.filter (fun i => i.created_at == t)).length : Int)
    - ((issues.filter (fun i => i.closed_at == some t)).length : Int)

/-- The multiset of timestamps inserted into `eventsByTime`. -/
def issueTimes (issues : List IssueEvent) : List Int :=
  issues.map (·.created_at) ++ issues.filterMap (·.closed_at)

/-- `Array.from(eventsByTime.keys()).sort((a, b) => a - b)`: the distinct
event timestamps in ascending order (the keys are duplicate-free, so any
sorted arrangement is this one). -/
def sortedIssueTimes (issues : List IssueEvent) : List Int :=
  (issueTimes issues).dedup.insertionSort (· ≤ ·)

/-- The `for (const time of sortedTimes)` loop: running sum `openIssues`
over the per-timestamp net deltas, one point per timestamp. -/
def issueWalk (issues : List IssueEvent) : List Int → Int → List (Int × Int)
  | [], _ => []
  | t :: ts, acc =>
    let acc2 := acc + issueDelta issues t
    (t, acc2) :: issueWalk issues ts acc2

/-- The open-issue series of `_getIssueChartConfig` for one repo: an anchor
`(firstTime − 1, 0)` when events exist, then the running prefix sum. -/
def issueChartSeries (issues : List IssueEvent) : List (Int × Int) :=
  match sortedIssueTimes issues with
  | [] => []
  | t0 :: ts => (t0 - 1, 0) :: issueWalk issues (t0 :: ts) 0

/-! ### Bounded paginated collectors -/

/-- The shared page loop of `_fetchStargazers` / `_fetchIssues`: push the
whole page, increment `pageCount`, break once `pageCount >= maxPages`.
`pageCount` is the number of pages consumed before the current one. -/
def collectPages {α : Type} (maxPages : Nat) :
    List (List α) → Nat → List α
  | [], _ => []
  | page :: rest, pageCount =>
    page ++
      (if pageCount + 1 >= maxPages then []
       else collectPages maxPages rest (pageCount + 1))

/-- `_fetchStargazers` (lines 1485-1514): `MAX_STARGAZER_PAGES = 10`,
`per_page: 100`; the server's page sequence is the argument, items are
`starred_at` timestamps. -/
def fetchStargazers (pages : List (List Int)) : List Int :=
  collectPages 10 pages 0

/-- A raw issue item of the paginated issue endpoint: `pull_request` is
present (true) exactly for pull requests. -/
structure RawIssue where
  created_at : Int
  closed_at : Option Int
  pull_request : Bool
deriving DecidableEq, Repr

/-- The page loop of `_fetchIssues` (lines 1516-1550): each page is
filtered (`!issue.pull_request`) and mapped to `{created_at, closed_at}`
before being pushed; the page counts against `MAX_ISSUE_PAGES = 10` even
if the filter removed items. -/
def fetchIssuesLoop : List (List RawIssue) → Nat → List IssueEvent
  | [], _ => []
  | page :: rest, pageCount =>
    let issuesOnly := page.filter (fun i => !i.pull_request)
    issuesOnly.map (fun i => ⟨i.created_at, i.closed_at⟩) ++
      (if pageCount + 1 >= 10 then [] else fetchIssuesLoop rest (pageCount + 1))

/-- `_fetchIssues`. -/
def fetchIssues (pages : List (List RawIssue)) : List IssueEvent :=
  fetchIssuesLoop pages 0

/-! ### CSV export (`_handleExportCsv`, lines 1956-2004) -/

/-- `s.replace(/"/g, '""')`: every double-quote character doubled. -/
def doubleQuotes (s : String) : String :=
  String.mk (s.data.foldr
    (fun ch acc => if ch == '"' then '"' :: '"' :: acc else ch :: acc) [])

/-- The inner `escapeCsv`: quote-wrap (with doubled quotes) exactly when
the string contains a comma, a double quote, or a newline. -/
def escapeCsv (s : String) : String :=
  if jsIncludes s ',' || jsIncludes s '"' || jsIncludes s '\n' then
    "\"" ++ doubleQuotes s ++ "\""
  else s

/-- The `headers` array. -/
def csvHeaders : List String :=
  ["Repository", "Stars", "Latest Version", "Last Update", "Size (KB)",
    "Total Downloads"]

/-- One CSV data row: only `identifier` and `latestVersion` pass through
`escapeCsv`; the number fields and `lastUpdate` are joined as-is
(`String(...)` conversion for numbers). -/
def csvRow (repo : RepoSummary) : String :=
  String.intercalate ","
    [escapeCsv repo.identifier, toString repo.stars,
      escapeCsv repo.latestVersion, repo.lastUpdate, toString repo.size,
      toString repo.totalDownloads]

/-- `_handleExportCsv` up to the produced CSV text (`none` = early return
on empty summary data; the download mechanics are outside the engine).
Rows follow `_repoOrder`, dropping identifiers without a summary row. -/
def handleExportCsv (repoOrder : List String)
    (repoSummaryData : List RepoSummary) : Option String :=
  if repoSummaryData.isEmpty then none
  else
    let sortedData := repoOrder.filterMap (fun id =>
      repoSummaryData.find? (fun d => d.identifier == id))
    some (String.intercalate "\n"
      (String.intercalate "," csvHeaders :: sortedData.map csvRow))

/-! ### Temporal model of the supplemental merge

`_handleRequestSort` performs `const results = await
Promise.all(stargazerPromises)` and assigns `this._stargazersData` once,
after that barrier.  Consequently the cache observable after `k` of the
`n` per-repo fetches have completed is the untouched original cache for
every `k < n`, and the fully merged map at `k = n`. -/
def supplementalCacheAfter (cache : List (String × List Int))
    (fetches : List (String × List Int)) (k : Nat) :
    List (String × List Int) :=
  if k < fetches.length then cache
  else fetches.foldl (fun m pr => mapSet m pr.1 pr.2) cache

/-- Modelled from the spec (refinement comparison only): the spec's
incremental merge — "merges completed results into the cache
entry-by-entry as each id's fetch completes", so after `k` completions the
first `k` results are already visible. -/
def supplementalCacheAfterSpec (cache : List (String × List Int))
    (fetches : List (String × List Int)) (k : Nat) :
    List (String × List Int) :=
  (fetches.take k).foldl (fun m pr => mapSet m pr.1 pr.2) cache

/-! ### Properties under verification -/

/-- The failure half of the atomic-commit contract of `_fetchDataForRepos`:
a rejected batch leaves every committed piece of state untouched and sets
the single aggregate message. -/
def BatchFailureFrame (s : EngineState) : Prop :=
  (fetchDataForRepos s none).repoSummaryData = s.repoSummaryData ∧
  (fetchDataForRepos s none).releasesData = s.releasesData ∧
  (fetchDataForRepos s none).downloadsData = s.downloadsData ∧
  (fetchDataForRepos s none).repoOrder = s.repoOrder ∧
  (fetchDataForRepos s none).stargazersData = s.stargazersData ∧
  (fetchDataForRepos s none).issuesData = s.issuesData ∧
  (fetchDataForRepos s none).repos = s.repos ∧
  (fetchDataForRepos s none).error = "errors.fetchRepoData" ∧
  (fetchDataForRepos s none).loading = false

/-- The success half: all four pieces are replaced together by the values
derived from the batch results. -/
def BatchSuccessCommit (s : EngineState) (results : List FetchPair) : Prop :=
  (fetchDataForRepos s (some results)).repoOrder = s.repos.map repoIdentifier ∧
  (fetchDataForRepos s (some results)).repoSummaryData =
    ((results.zip s.repos).map processResult).map (fun e => e.2.2.2) ∧
  (fetchDataForRepos s (some results)).releasesData =
    ((results.zip s.repos).map processResult).foldl
      (fun m e => mapSet m e.1 e.2.1) [] ∧
  (fetchDataForRepos s (some results)).downloadsData =
    ((results.zip s.repos).map processResult).foldl
      (fun m e => mapSet m e.1 e.2.2.1) [] ∧
  (fetchDataForRepos s (some results)).error = "" ∧
  (fetchDataForRepos s (some results)).loading = false

/-- The refused-sort contract (`PolicyGated`): state preserved except for
the explanatory message, and no supplemental fetch effect. -/
def PolicyGatedOk (s : EngineState) (key : SortKey)
    (starOutcome : Option (List (List Int)))
    (issueOutcome : Option (List (List IssueEvent))) : Prop :=
  (handleRequestSort s key starOutcome issueOutcome).state.repoOrder = s.repoOrder ∧
  (handleRequestSort s key starOutcome issueOutcome).state.sortKey = s.sortKey ∧
  (handleRequestSort s key starOutcome issueOutcome).state.sortDirection =
    s.sortDirection ∧
  (handleRequestSort s key starOutcome issueOutcome).state.authError =
    "errors.authRequired" ∧
  (handleRequestSort s key starOutcome issueOutcome).state.stargazersData =
    s.stargazersData ∧
  (handleRequestSort s key starOutcome issueOutcome).state.issuesData =
    s.issuesData ∧
  (handleRequestSort s key starOutcome issueOutcome).state.repos = s.repos ∧
  (handleRequestSort s key starOutcome issueOutcome).starFetchedIds = [] ∧
  (handleRequestSort s key starOutcome issueOutcome).issueFetchedIds = []

/-- The frame contract of `_handleRemoveRepo`: exactly the removed
identifier disappears, every other repo's entry in every piece of state is
untouched, and the surviving entries keep their relative order. -/
def RemoveFrameOk (s : EngineState) (repo : RepoRef) : Prop :=
  repoIdentifier repo ∉ (handleRemoveRepo s repo).repos.map repoIdentifier ∧
  repoIdentifier repo ∉ (handleRemoveRepo s repo).repoOrder ∧
  repoIdentifier repo ∉
    (handleRemoveRepo s repo).repoSummaryData.map (·.identifier) ∧
  (handleRemoveRepo s repo).repos.Sublist s.repos ∧
  (handleRemoveRepo s repo).repoOrder.Sublist s.repoOrder ∧
  (handleRemoveRepo s repo).repoSummaryData.Sublist s.repoSummaryData ∧
  (∀ r ∈ s.repos, repoIdentifier r ≠ repoIdentifier repo →
    r ∈ (handleRemoveRepo s repo).repos) ∧
  (∀ x ∈ s.repoOrder, x ≠ repoIdentifier repo →
    x ∈ (handleRemoveRepo s repo).repoOrder) ∧
  (∀ d ∈ s.repoSummaryData, d.identifier ≠ repoIdentifier repo →
    d ∈ (handleRemoveRepo s repo).repoSummaryData) ∧
  (∀ x, x ≠ repoIdentifier repo →
    mapGet (handleRemoveRepo s repo).releasesData x = mapGet s.releasesData x ∧
    mapGet (handleRemoveRepo s repo).downloadsData x = mapGet s.downloadsData x ∧
    mapGet (handleRemoveRepo s repo).stargazersData x = mapGet s.stargazersData x ∧
    mapGet (handleRemoveRepo s repo).issuesData x = mapGet s.issuesData x)

/-- CSV body structure of `_handleExportCsv`: exact header literal, one row
per `DisplayOrder` identifier that has a summary row, each row escaping
exactly the `identifier` and `latestVersion` fields. -/
def CsvExportOk (repoOrder : List String) (rows : List RepoSummary) : Prop :=
  handleExportCsv repoOrder rows =
    some (String.intercalate "\n"
      ("Repository,Stars,Latest Version,Last Update,Size (KB),Total Downloads" ::
        (repoOrder.filterMap (fun id =>
          rows.find? (fun d => d.identifier == id))).map csvRow)) ∧
  ∀ r ∈ rows, csvRow r = String.intercalate ","
    [escapeCsv r.identifier, toString r.stars, escapeCsv r.latestVersion,
      r.lastUpdate, toString r.size, toString r.totalDownloads]

/-- Supplemental star-fetch contract of `_handleRequestSort`: only the
identifiers missing from the cache are fetched, and the new cache is the
old one extended with exactly the fetched results (one commit). -/
def SupplementalFetchOk (s : EngineState) (starOutcome : List (List Int)) :
    Prop :=
  (handleRequestSort s .stars (some starOutcome) none).starFetchedIds =
    (s.repos.filter (fun r =>
      !(mapHas s.stargazersData (repoIdentifier r)))).map repoIdentifier ∧
  (handleRequestSort s .stars (some starOutcome) none).state.stargazersData =
    (starOutcome.zip (s.repos.filter (fun r =>
      !(mapHas s.stargazersData (repoIdentifier r))))).foldl
      (fun m pr => mapSet m (repoIdentifier pr.2) pr.1) s.stargazersData

/-- The open-issue count at time `T` determined directly by the events:
issues created no later than `T` minus issues closed no later than `T`. -/
def openIssuesAt (issues : List IssueEvent) (T : Int) : Int :=
  ((issues.filter (fun i => decide (i.created_at ≤ T))).length : Int) -
    ((issues.filter (fun i =>
      match i.closed_at with
      | some c => decide (c ≤ T)
      | none => false)).length : Int)

/-! ### Reachability side conditions

GitHub user and repository names are non-empty and contain no `/`; the
form guard additionally rejects empty fields.  A batch outcome is
"successful" when `Promise.all` resolved, with one result pair per
repo.  A drag-reorder delivers a permutation of the rendered order. -/

/-- The name contains no `/` (true of GitHub user/repo names; `/` in a
name would make the canonical `owner/name` form ambiguous). -/
def SlashFree (s : String) : Prop := '/' ∉ s.data

/-- A well-formed repo reference: non-empty, slash-free components. -/
def GoodRepo (r : RepoRef) : Prop :=
  r.username ≠ "" ∧ r.repository ≠ "" ∧
    SlashFree r.username ∧ SlashFree r.repository

instance : DecidablePred SlashFree :=
  fun s => inferInstanceAs (Decidable ('/' ∉ s.data))

instance (r : RepoRef) : Decidable (GoodRepo r) :=
  inferInstanceAs (Decidable (_ ∧ _ ∧ _ ∧ _))

/-- A well-formed saved identifier list: duplicate-free canonical forms of
well-formed repo references. -/
def SavedOk (ids : List String) : Prop :=
  ids.Nodup ∧ ∀ id ∈ ids, ∃ r, GoodRepo r ∧ repoIdentifier r = id

/-- A resolved `Promise.all` with one settled pair per repo. -/
def FetchOk (n : Nat) (outcome : Option (List FetchPair)) : Prop :=
  ∃ results, outcome = some results ∧ results.length = n

/-- The engine invariant: repos well-formed and duplicate-free, display
order and summary rows a permutation of the repo identifiers, saved sets
well-formed. -/
def WF (s : EngineState) : Prop :=
  (∀ r ∈ s.repos, GoodRepo r) ∧
  (s.repos.map repoIdentifier).Nodup ∧
  s.repoOrder.Perm (s.repos.map repoIdentifier) ∧
  (s.repoSummaryData.map (·.identifier)).Perm (s.repos.map repoIdentifier) ∧
  (∀ p ∈ s.savedSets, SavedOk p.2)

/-- The environment conditions under which an operation runs: submitted
names well-formed, every triggered primary batch fetch successful with one
result per repo, manual reorders permutations of the current order. -/
def GoodOp (s : EngineState) : Op → Prop
  | .submit u r outcome =>
      (u == "" || r == "") = false →
      s.repos.any (fun p => p.username == u && p.repository == r) = false →
      SlashFree u ∧ SlashFree r ∧ FetchOk (s.repos.length + 1) outcome
  | .remove _ => True
  | .requestSort _ _ _ => True
  | .manualOrder l => l.Perm s.repoOrder
  | .clearAll => True
  | .saveSet _ => True
  | .loadSet n outcome =>
      ∀ ids, mapGet s.savedSets n = some ids →
        FetchOk (ids.filterMap parseRepo).length outcome
  | .deleteSet _ => True
  | .setToken _ outcome =>
      s.repos.isEmpty = false → FetchOk s.repos.length outcome

/-- `GoodOp` holding along a whole run. -/
def GoodTrace : EngineState → List Op → Prop
  | _, [] => True
  | s, op :: ops => GoodOp s op ∧ GoodTrace (step s op) ops

/-! ## Theorems -/

theorem mapGet_cons {α : Type} (p : String × α) (m : List (String × α))
    (x : String) :
    mapGet (p :: m) x = if p.1 == x then some p.2 else mapGet m x := by
  by_cases h : p.1 == x <;> simp [mapGet, List.find?_cons, h]

theorem mapGet_mapDelete_ne {α : Type} (m : List (String × α)) (k x : String)
    (h : x ≠ k) : mapGet (mapDelete m k) x = mapGet m x := by
  induction m with
  | nil => rfl
  | cons p m ih =>
    by_cases hp : p.1 = k
    · have : (p.1 != k) = false := by simp [hp]
      have hpx : (p.1 == x) = false := by
        simp only [beq_eq_false_iff_ne]
        exact fun hh => h (hh ▸ hp ▸ rfl)
      simp [mapDelete, List.filter_cons, this, mapGet_cons, hpx] at ih ⊢
      simpa [mapDelete] using ih
    · have : (p.1 != k) = true := by simp [hp]
      simp only [mapDelete, List.filter_cons, this, if_true]
      rw [mapGet_cons, mapGet_cons]
      by_cases hx : p.1 == x
      · simp [hx]
      · simpa [hx, mapDelete] using ih

/-- **C1**: the primary batch fetch (`_fetchDataForRepos`) is
all-or-nothing: a failed batch leaves `RepoSummary` rows, the
releases/downloads data and `DisplayOrder` exactly as they were and sets
the single aggregate error message; a fully successful batch replaces all
of that state in one commit. -/
theorem C1_primary_batch_all_or_nothing (s : EngineState) :
    BatchFailureFrame s ∧ ∀ results : List FetchPair, BatchSuccessCommit s results :=
  ⟨⟨rfl, rfl, rfl, rfl, rfl, rfl, rfl, rfl, rfl⟩,
    fun _ => ⟨rfl, rfl, rfl, rfl, rfl, rfl⟩⟩

/-- **C7**: with no credential set, a sort request for `stars` or
`openIssues` is refused locally: the policy message is set, no supplemental
fetch is issued, and `DisplayOrder`, sort key and sort direction are left
unchanged. -/
theorem C7_sort_policy_gated (s : EngineState) (key : SortKey)
    (hkey : key = .stars ∨ key = .openIssues) (htok : s.githubToken = "")
    (starOutcome : Option (List (List Int)))
    (issueOutcome : Option (List (List IssueEvent))) :
    PolicyGatedOk s key starOutcome issueOutcome := by
  rcases hkey with h | h <;> subst h <;>
    simp [PolicyGatedOk, handleRequestSort, htok]

theorem C7_sort_policy_gated_witness :
    initialState.githubToken = "" ∧
      PolicyGatedOk initialState .stars none none :=
  ⟨rfl, C7_sort_policy_gated initialState .stars (Or.inl rfl) rfl none none⟩

/-- **C10**: removing a repo removes exactly it: remaining identifiers keep
their relative order in `RepoSet` and `DisplayOrder`, and the releases,
downloads, star, issue and summary data of every other identifier are
unchanged. -/
theorem C10_remove_repo_frame (s : EngineState) (repo : RepoRef) :
    RemoveFrameOk s repo := by
  refine ⟨?_, ?_, ?_, ?_, ?_, ?_, ?_, ?_, ?_, ?_⟩
  · simp [handleRemoveRepo, List.mem_filter]
  · simp [handleRemoveRepo, List.mem_filter]
  · simp [handleRemoveRepo, List.mem_filter]
  · exact List.filter_sublist _
  · exact List.filter_sublist _
  · exact List.filter_sublist _
  · intro r hr hne
    simp [handleRemoveRepo, List.mem_filter, hr, hne]
  · intro x hx hne
    simp [handleRemoveRepo, List.mem_filter, hx, hne]
  · intro d hd hne
    simp [handleRemoveRepo, List.mem_filter, hd, hne]
  · intro x hne
    exact ⟨mapGet_mapDelete_ne _ _ _ hne, mapGet_mapDelete_ne _ _ _ hne,
      mapGet_mapDelete_ne _ _ _ hne, mapGet_mapDelete_ne _ _ _ hne⟩

theorem C10_remove_repo_frame_witness :
    RemoveFrameOk
      (run [Op.submit "a" "b" (some [⟨[], ⟨0, "t", 0, 0⟩⟩]),
            Op.submit "c" "d" (some [⟨[], ⟨0, "t", 0, 0⟩⟩, ⟨[], ⟨0, "t", 0, 0⟩⟩])])
      ⟨"a", "b"⟩ :=
  C10_remove_repo_frame _ _

/-- **C4**: the cumulative star series has one point per event, `y` values
exactly the integers `1..N` in order, and non-decreasing `x` values. -/
theorem C4_cumulative_star_series (events : List Int) :
    (starChartSeries events).length = events.length ∧
    (starChartSeries events).map Prod.snd =
      (List.range events.length).map (fun i : Nat => (i : Int) + 1) ∧
    List.Sorted (· ≤ ·) ((starChartSeries events).map Prod.fst) := by
  have hlen : (events.insertionSort (· ≤ ·)).length = events.length :=
    (List.perm_insertionSort _ events).length_eq
  refine ⟨?_, ?_, ?_⟩
  · simp [starChartSeries, List.enum_length, hlen]
  · simp only [starChartSeries, List.map_map]
    have hcomp : (Prod.snd ∘ fun p : Nat × Int => ((p.2 : Int), (p.1 : Int) + 1))
        = (fun i : Nat => (i : Int) + 1) ∘ Prod.fst := rfl
    rw [hcomp, ← List.map_map, List.enum_map_fst, hlen]
  · have h2 : (starChartSeries events).map Prod.fst
        = events.insertionSort (· ≤ ·) := by
      simp only [starChartSeries, List.map_map]
      have hcomp : (Prod.fst ∘ fun p : Nat × Int => ((p.2 : Int), (p.1 : Int) + 1))
          = (Prod.snd : Nat × Int → Int) := rfl
      rw [hcomp, List.enum_map_snd]
    rw [h2]
    exact List.sorted_insertionSort _ events

theorem collectPages_eq {α : Type} (maxPages : Nat) (pages : List (List α)) :
    ∀ pageCount, pageCount < maxPages →
      collectPages maxPages pages pageCount =
        (pages.take (maxPages - pageCount)).flatten := by
  induction pages with
  | nil => intro c _; simp [collectPages]
  | cons page rest ih =>
    intro c h
    by_cases hc : c + 1 ≥ maxPages
    · have h1 : maxPages - c = 1 := by omega
      simp [collectPages, hc, h1]
    · have h2 : c + 1 < maxPages := by omega
      have h1 : maxPages - c = (maxPages - (c + 1)) + 1 := by omega
      simp only [collectPages, if_neg hc, ih (c + 1) h2, h1,
        List.take_succ_cons, List.flatten_cons]

theorem fetchIssuesLoop_eq (pages : List (List RawIssue)) :
    ∀ pageCount, pageCount < 10 →
      fetchIssuesLoop pages pageCount =
        ((pages.take (10 - pageCount)).map (fun page =>
          (page.filter (fun i => !i.pull_request)).map
            (fun i => (⟨i.created_at, i.closed_at⟩ : IssueEvent)))).flatten := by
  induction pages with
  | nil => intro c _; simp [fetchIssuesLoop]
  | cons page rest ih =>
    intro c h
    by_cases hc : c + 1 ≥ 10
    · have h1 : 10 - c = 1 := by omega
      simp [fetchIssuesLoop, hc, h1]
    · have h2 : c + 1 < 10 := by omega
      have h1 : 10 - c = (10 - (c + 1)) + 1 := by omega
      simp only [fetchIssuesLoop, if_neg hc, ih (c + 1) h2, h1,
        List.take_succ_cons, List.map_cons, List.flatten_cons]

theorem flatten_take_le {α : Type} (pages : List (List α))
    (h : ∀ p ∈ pages, p.length ≤ 100) :
    (pages.take 10).flatten.length ≤ 1000 := by
  rw [List.length_flatten]
  have h1 : ∀ x ∈ (pages.take 10).map List.length, x ≤ 100 := by
    intro x hx
    simp only [List.mem_map] at hx
    obtain ⟨p, hp, rfl⟩ := hx
    exact h p (List.take_subset _ _ hp)
  have h2 := List.sum_le_card_nsmul _ 100 h1
  have h3 : ((pages.take 10).map List.length).length ≤ 10 := by
    simp [List.length_take]
  simp only [smul_eq_mul] at h2
  omega

/-- The collectors' contract: exactly the first 10 server-ordered pages,
in server order (the issue collector filtering out pull requests per
page). -/
def PageCapOk : Prop :=
  (∀ pages : List (List Int),
    fetchStargazers pages = (pages.take 10).flatten) ∧
  (∀ pages : List (List RawIssue),
    fetchIssues pages =
      ((pages.take 10).map (fun page =>
        (page.filter (fun i => !i.pull_request)).map
          (fun i => (⟨i.created_at, i.closed_at⟩ : IssueEvent)))).flatten)

/-- **C5**: the supplemental collectors consume at most 10 pages,
deterministically the first 10 server-ordered pages in order, and with
pages of at most 100 items yield at most 1000 items. -/
theorem C5_page_cap :
    PageCapOk ∧
    (∀ pages : List (List Int), (∀ p ∈ pages, p.length ≤ 100) →
      (fetchStargazers pages).length ≤ 1000) ∧
    (∀ pages : List (List RawIssue), (∀ p ∈ pages, p.length ≤ 100) →
      (fetchIssues pages).length ≤ 1000) := by
  have hstar : ∀ pages : List (List Int),
      fetchStargazers pages = (pages.take 10).flatten :=
    fun pages => collectPages_eq 10 pages 0 (by omega)
  have hiss : ∀ pages : List (List RawIssue),
      fetchIssues pages =
        ((pages.take 10).map (fun page =>
          (page.filter (fun i => !i.pull_request)).map
            (fun i => (⟨i.created_at, i.closed_at⟩ : IssueEvent)))).flatten :=
    fun pages => fetchIssuesLoop_eq pages 0 (by omega)
  refine ⟨⟨hstar, hiss⟩, ?_, ?_⟩
  · intro pages h
    rw [hstar]
    exact flatten_take_le pages h
  · intro pages h
    rw [hiss, List.map_take]
    refine flatten_take_le _ ?_
    intro p hp
    simp only [List.mem_map] at hp
    obtain ⟨q, hq, rfl⟩ := hp
    calc (List.map _ (q.filter _)).length
        = (q.filter (fun i => !i.pull_request)).length := List.length_map _ _
      _ ≤ q.length := List.length_filter_le _ _
      _ ≤ 100 := h q hq

theorem C5_page_cap_witness :
    (∀ p ∈ List.replicate 11 (List.replicate 100 (0 : Int)), p.length ≤ 100) ∧
    (fetchStargazers (List.replicate 11 (List.replicate 100 (0 : Int)))).length
      ≤ 1000 ∧
    (∀ p ∈ List.replicate 11
        (List.replicate 100 (⟨0, none, false⟩ : RawIssue)), p.length ≤ 100) ∧
    (fetchIssues (List.replicate 11
        (List.replicate 100 (⟨0, none, false⟩ : RawIssue)))).length ≤ 1000 := by
  have h1 : ∀ p ∈ List.replicate 11 (List.replicate 100 (0 : Int)),
      p.length ≤ 100 := by
    intro p hp
    rw [List.eq_of_mem_replicate hp]
    simp
  have h2 : ∀ p ∈ List.replicate 11
      (List.replicate 100 (⟨0, none, false⟩ : RawIssue)), p.length ≤ 100 := by
    intro p hp
    rw [List.eq_of_mem_replicate hp]
    simp
  exact ⟨h1, C5_page_cap.2.1 _ h1, h2, C5_page_cap.2.2 _ h2⟩

/-- **C8** counterexample: the claim requires every field containing a
comma to be quoted, but the code escapes only `identifier` and
`latestVersion`; a `lastUpdate` value containing a comma is emitted
unquoted. -/
theorem C8_csv_escaping_counterexample :
    handleExportCsv ["o/r"]
        [{ identifier := "o/r", stars := 1, latestVersion := "v1",
           lastUpdate := "a,b", size := 2, totalDownloads := 3,
           openIssues := 4 }] =
      some "Repository,Stars,Latest Version,Last Update,Size (KB),Total Downloads\no/r,1,v1,a,b,2,3" ∧
    handleExportCsv ["o/r"]
        [{ identifier := "o/r", stars := 1, latestVersion := "v1",
           lastUpdate := "a,b", size := 2, totalDownloads := 3,
           openIssues := 4 }] ≠
      some "Repository,Stars,Latest Version,Last Update,Size (KB),Total Downloads\no/r,1,v1,\"a,b\",2,3" := by
  exact ⟨by decide, by decide⟩

/-- **C8** (amended): exact header row, one row per `DisplayOrder`
identifier having a summary row; the `Repository` and `Latest Version`
fields are escaped by the quoting rule (quote-wrap, embedded quotes
doubled, exactly when the value contains a comma, quote, or newline),
while `Stars`, `Last Update`, `Size (KB)` and `Total Downloads` are
emitted via string conversion unchanged. -/
theorem C8_csv_export (repoOrder : List String) (rows : List RepoSummary)
    (h : rows ≠ []) :
    CsvExportOk repoOrder rows ∧
    (∀ s : String, jsIncludes s ',' = false → jsIncludes s '"' = false →
      jsIncludes s '\n' = false → escapeCsv s = s) ∧
    (∀ s : String, jsIncludes s ',' = true ∨ jsIncludes s '"' = true ∨
      jsIncludes s '\n' = true →
      escapeCsv s = "\"" ++ doubleQuotes s ++ "\"") ∧
    escapeCsv "a,b" = "\"a,b\"" ∧ escapeCsv "a\"b" = "\"a\"\"b\"" := by
  refine ⟨⟨?_, fun r _ => rfl⟩, ?_, ?_, by decide, by decide⟩
  · have hne : rows.isEmpty = false := by
      cases rows with
      | nil => exact absurd rfl h
      | cons a l => rfl
    have hhdr : String.intercalate "," csvHeaders =
        "Repository,Stars,Latest Version,Last Update,Size (KB),Total Downloads" := by
      decide
    simp [handleExportCsv, hne, hhdr]
  · intro s h1 h2 h3
    simp [escapeCsv, h1, h2, h3]
  · intro s hs
    rcases hs with h | h | h <;> simp [escapeCsv, h]

theorem C8_csv_export_witness :
    (([{ identifier := "o/r", stars := 1, latestVersion := "v1",
         lastUpdate := "u", size := 2, totalDownloads := 3,
         openIssues := 4 }] : List RepoSummary) ≠ []) ∧
    CsvExportOk ["o/r"]
      [{ identifier := "o/r", stars := 1, latestVersion := "v1",
         lastUpdate := "u", size := 2, totalDownloads := 3,
         openIssues := 4 }] :=
  ⟨by decide, (C8_csv_export ["o/r"] _ (by decide)).1⟩

/-- **C9** counterexample: with two identifiers missing from the cache,
after the first per-repo fetch completes (one of two) the cache is still
the untouched original — the handler commits once behind the
`Promise.all` barrier — whereas the claimed entry-by-entry merge would
already contain the first result. -/
theorem C9_incremental_merge_counterexample :
    supplementalCacheAfter [] [("a/b", [1]), ("c/d", [2])] 1 = [] ∧
    supplementalCacheAfterSpec [] [("a/b", [1]), ("c/d", [2])] 1 =
      [("a/b", [1])] ∧
    supplementalCacheAfter [] [("a/b", [1]), ("c/d", [2])] 1 ≠
      supplementalCacheAfterSpec [] [("a/b", [1]), ("c/d", [2])] 1 :=
  ⟨by decide, by decide, by decide⟩

/-- **C9** (amended): only identifiers missing from the cache are fetched,
and the results are merged in a single commit after all the requested
fetches have settled (barrier-gated fan-in), the cache being observably
unchanged at every earlier completion. -/
theorem C9_supplemental_fetch (s : EngineState) (htok : s.githubToken ≠ "")
    (starOutcome : List (List Int)) :
    SupplementalFetchOk s starOutcome ∧
    (∀ (cache fetches : List (String × List Int)) (k : Nat),
      k < fetches.length → supplementalCacheAfter cache fetches k = cache) ∧
    (∀ cache fetches : List (String × List Int),
      supplementalCacheAfter cache fetches fetches.length =
        fetches.foldl (fun m pr => mapSet m pr.1 pr.2) cache) := by
  refine ⟨?_, ?_, ?_⟩
  · have htokb : (s.githubToken == "") = false := by
      simpa using htok
    by_cases hempty : (s.repos.filter (fun r =>
        !(mapHas s.stargazersData (repoIdentifier r)))).isEmpty
    · have heq := List.isEmpty_iff.mp hempty
      constructor <;>
        simp [SupplementalFetchOk, handleRequestSort, htokb, hempty, heq]
    · have hempty' : (s.repos.filter (fun r =>
          !(mapHas s.stargazersData (repoIdentifier r)))).isEmpty = false := by
        simpa using hempty
      constructor <;>
        simp [SupplementalFetchOk, handleRequestSort, htokb, hempty']
  · intro cache fetches k hk
    simp [supplementalCacheAfter, hk]
  · intro cache fetches
    simp [supplementalCacheAfter]

theorem C9_supplemental_fetch_witness :
    (run [Op.setToken "t" none]).githubToken ≠ "" ∧
    SupplementalFetchOk (run [Op.setToken "t" none]) [[1], [2]] :=
  ⟨by decide, (C9_supplemental_fetch _ (by decide) _).1⟩

theorem sum_map_sub_int (f g : Int → Int) :
    ∀ l : List Int,
      (l.map (fun x => f x - g x)).sum = (l.map f).sum - (l.map g).sum := by
  intro l
  induction l with
  | nil => simp
  | cons a l ih =>
    simp only [List.map_cons, List.sum_cons, ih]
    ring

theorem sum_ite_filter (p : Int → Prop) [DecidablePred p] (f : Int → Int) :
    ∀ l : List Int,
      ((l.filter (fun x => decide (p x))).map f).sum
        = (l.map (fun x => if p x then f x else 0)).sum := by
  intro l
  induction l with
  | nil => simp
  | cons a l ih =>
    by_cases h : p a
    · simp [List.filter_cons, h, ih]
    · simp [List.filter_cons, h, ih]

theorem sum_indicator_mem (ts : List Int) (hnd : ts.Nodup) (c : Int)
    (hc : c ∈ ts) (T : Int) :
    ((ts.map (fun t => if t ≤ T ∧ t = c then (1 : Int) else 0)).sum)
      = if c ≤ T then 1 else 0 := by
  rw [← List.sum_toFinset _ hnd]
  have hrw : ∀ t : Int, (if t ≤ T ∧ t = c then (1 : Int) else 0)
      = if t = c then (if c ≤ T then (1 : Int) else 0) else 0 := by
    intro t
    by_cases h1 : t = c
    · subst h1
      by_cases h2 : t ≤ T <;> simp [h2]
    · simp [h1]
  simp only [hrw]
  rw [Finset.sum_ite_eq' ts.toFinset c
    (fun _ => if c ≤ T then (1 : Int) else 0)]
  simp [hc]

theorem count_sum_over_times (ts : List Int) (hnd : ts.Nodup) (T : Int)
    (g : IssueEvent → Option Int) :
    ∀ issues : List IssueEvent,
      (∀ i ∈ issues, ∀ c, g i = some c → c ∈ ts) →
      ((ts.map (fun t => if t ≤ T
          then ((issues.filter (fun i => g i == some t)).length : Int)
          else 0)).sum)
        = ((issues.filter (fun i =>
            match g i with
            | some c => decide (c ≤ T)
            | none => false)).length : Int) := by
  intro issues
  induction issues with
  | nil =>
    intro _
    simp
  | cons i is ih =>
    intro hmem
    have ihs := ih (fun j hj => hmem j (List.mem_cons_of_mem _ hj))
    cases hgi : g i with
    | none =>
      have hpt : ∀ t : Int, ((i :: is).filter (fun j => g j == some t))
          = is.filter (fun j => g j == some t) := by
        intro t
        rw [List.filter_cons, if_neg]
        simp [hgi]
      have hft : ((i :: is).filter (fun j =>
            match g j with
            | some c => decide (c ≤ T)
            | none => false))
          = is.filter (fun j =>
            match g j with
            | some c => decide (c ≤ T)
            | none => false) := by
        rw [List.filter_cons, if_neg]
        simp [hgi]
      simp only [hpt, hft]
      exact ihs
    | some c =>
      have hc : c ∈ ts := hmem i (List.mem_cons_self i is) c hgi
      have hcond : (g i == some c) = true := by simp [hgi]
      have hkeep : ((i :: is).filter (fun j => g j == some c))
          = i :: is.filter (fun j => g j == some c) := by
        rw [List.filter_cons, if_pos hcond]
      have hskip : ∀ t : Int, t ≠ c →
          ((i :: is).filter (fun j => g j == some t))
            = is.filter (fun j => g j == some t) := by
        intro t ht
        have hcond2 : (g i == some t) = false := by
          simp [hgi]
          omega
        rw [List.filter_cons, if_neg (by simp [hcond2])]
      have hfun : (fun t : Int => if t ≤ T
            then (((i :: is).filter (fun j => g j == some t)).length : Int)
            else 0)
          = fun t : Int =>
            (if t ≤ T
              then ((is.filter (fun j => g j == some t)).length : Int)
              else 0)
            + (if t ≤ T ∧ t = c then 1 else 0) := by
        funext t
        by_cases hct : t = c
        · subst hct
          rw [hkeep, List.length_cons]
          by_cases hT : t ≤ T
          · rw [if_pos hT, if_pos hT, if_pos ⟨hT, rfl⟩]
            push_cast
            ring
          · rw [if_neg hT, if_neg hT,
              if_neg (fun hh : t ≤ T ∧ t = t => hT hh.1)]
            ring
        · rw [hskip t hct,
            if_neg (fun hh : t ≤ T ∧ t = c => hct hh.2), add_zero]
      rw [hfun, List.sum_map_add, ihs,
        sum_indicator_mem ts hnd c hc T, List.filter_cons]
      by_cases hT : c ≤ T
      · have hm : (match g i with
            | some c => decide (c ≤ T)
            | none => false) = true := by
          simp [hgi, hT]
        rw [if_pos hm, List.length_cons, if_pos hT]
        push_cast
        ring
      · have hm : (match g i with
            | some c => decide (c ≤ T)
            | none => false) = false := by
          simp [hgi]
          omega
        simp [hm, hT]

theorem sortedIssueTimes_nodup (issues : List IssueEvent) :
    (sortedIssueTimes issues).Nodup :=
  (List.perm_insertionSort _ _).nodup_iff.mpr (List.nodup_dedup _)

theorem sortedIssueTimes_sorted_le (issues : List IssueEvent) :
    (sortedIssueTimes issues).Sorted (· ≤ ·) :=
  List.sorted_insertionSort _ _

theorem mem_sortedIssueTimes {t : Int} (issues : List IssueEvent) :
    t ∈ sortedIssueTimes issues ↔ t ∈ issueTimes issues := by
  unfold sortedIssueTimes
  rw [(List.perm_insertionSort _ _).mem_iff, List.mem_dedup]

theorem sortedIssueTimes_sorted_lt (issues : List IssueEvent) :
    (sortedIssueTimes issues).Sorted (· < ·) :=
  List.Pairwise.imp (fun h => lt_of_le_of_ne h.1 h.2)
    ((sortedIssueTimes_sorted_le issues).and (sortedIssueTimes_nodup issues))

theorem openIssuesAt_eq_sum (issues : List IssueEvent) (T : Int) :
    openIssuesAt issues T =
      (((sortedIssueTimes issues).filter (fun t => decide (t ≤ T))).map
        (issueDelta issues)).sum := by
  rw [sum_ite_filter (fun t => t ≤ T) (issueDelta issues)]
  have hsplit : ∀ t : Int, (if t ≤ T then issueDelta issues t else 0)
      = (if t ≤ T
          then ((issues.filter (fun i => i.created_at == t)).length : Int)
          else 0)
        - (if t ≤ T
            then ((issues.filter (fun i => i.closed_at == some t)).length : Int)
            else 0) := by
    intro t
    by_cases h : t ≤ T <;> simp [h, issueDelta]
  simp only [hsplit]
  rw [sum_map_sub_int]
  have hfc : ∀ t : Int, issues.filter (fun i => i.created_at == t)
      = issues.filter (fun i => (some i.created_at : Option Int) == some t) := by
    intro t
    apply List.filter_congr
    intro j _
    by_cases h : j.created_at = t <;> simp [h]
  have hmemC : ∀ i ∈ issues, ∀ c : Int,
      (some i.created_at : Option Int) = some c →
      c ∈ sortedIssueTimes issues := by
    intro i hi c hcc
    have hcc2 : i.created_at = c := by
      simpa using hcc
    exact (mem_sortedIssueTimes issues).mpr
      (List.mem_append_left _ (hcc2 ▸ List.mem_map_of_mem _ hi))
  have hmemX : ∀ i ∈ issues, ∀ c : Int,
      i.closed_at = some c → c ∈ sortedIssueTimes issues := by
    intro i hi c hcc
    exact (mem_sortedIssueTimes issues).mpr
      (List.mem_append_right _ (List.mem_filterMap.mpr ⟨i, hi, hcc⟩))
  have hcreated := count_sum_over_times (sortedIssueTimes issues)
    (sortedIssueTimes_nodup issues) T (fun i => some i.created_at) issues hmemC
  have hclosed := count_sum_over_times (sortedIssueTimes issues)
    (sortedIssueTimes_nodup issues) T (fun i => i.closed_at) issues hmemX
  simp only [hfc]
  rw [hcreated, hclosed]
  rfl

theorem filter_le_split (ts : List Int) (hs : ts.Sorted (· ≤ ·))
    (hnd : ts.Nodup) (done rest : List Int) (t : Int)
    (h : ts = done ++ t :: rest) :
    ts.filter (fun x => decide (x ≤ t)) = done ++ [t] := by
  subst h
  have hdone : ∀ x ∈ done, x ≤ t :=
    fun x hx => (List.pairwise_append.mp hs).2.2 x hx t (List.mem_cons_self _ _)
  have hrest : ∀ y ∈ rest, ¬(y ≤ t) := by
    intro y hy hle
    have h1 : t ≤ y := (List.pairwise_cons.mp (List.pairwise_append.mp hs).2.1).1 y hy
    have h2 : t ≠ y := (List.pairwise_cons.mp (List.pairwise_append.mp hnd).2.1).1 y hy
    exact h2 (le_antisymm h1 (by omega))
  rw [List.filter_append, List.filter_cons]
  rw [List.filter_eq_self.mpr (fun x hx => by simpa using hdone x hx)]
  rw [if_pos (by simp)]
  rw [List.filter_eq_nil_iff.mpr (fun y hy => by simpa using hrest y hy)]

theorem issueWalk_eq (issues : List IssueEvent) :
    ∀ (rest done : List Int) (acc : Int),
      sortedIssueTimes issues = done ++ rest →
      acc = ((done.map (issueDelta issues)).sum) →
      issueWalk issues rest acc
        = rest.map (fun t => (t, openIssuesAt issues t)) := by
  intro rest
  induction rest with
  | nil => intro done acc _ _; rfl
  | cons t rest ih =>
    intro done acc hsplit hacc
    have hopen : openIssuesAt issues t = acc + issueDelta issues t := by
      rw [openIssuesAt_eq_sum,
        filter_le_split _ (sortedIssueTimes_sorted_le issues)
          (sortedIssueTimes_nodup issues) done rest t hsplit,
        List.map_append, List.sum_append, ← hacc]
      simp
    show (t, acc + issueDelta issues t)
        :: issueWalk issues rest (acc + issueDelta issues t) = _
    rw [List.map_cons, hopen]
    congr 1
    exact ih (done ++ [t]) (acc + issueDelta issues t)
      (by rw [hsplit]; simp)
      (by simp [hacc])

/-- **C3**: the open-issue series merges same-timestamp deltas, sorts the
distinct timestamps ascending, prepends the `(first − 1, 0)` anchor, and
emits the running prefix sum — whose value at each timestamp `t` is the
closed-form open count (created ≤ t minus closed ≤ t); including the two
worked examples of the specification. -/
theorem C3_issue_sweep_line :
    (∀ (issues : List IssueEvent) (t0 : Int) (ts : List Int),
      sortedIssueTimes issues = t0 :: ts →
      issueChartSeries issues
        = (t0 - 1, 0) :: (t0 :: ts).map (fun t => (t, openIssuesAt issues t))) ∧
    (∀ issues : List IssueEvent, (sortedIssueTimes issues).Sorted (· < ·)) ∧
    (∀ (issues : List IssueEvent) (t : Int),
      t ∈ sortedIssueTimes issues ↔ t ∈ issueTimes issues) ∧
    issueDelta [⟨10, none⟩, ⟨10, some 10⟩] 10 = 1 ∧
    issueChartSeries [⟨10, none⟩, ⟨10, some 10⟩] = [(9, 0), (10, 1)] ∧
    issueChartSeries [⟨1, some 5⟩, ⟨3, none⟩]
      = [(0, 0), (1, 1), (3, 2), (5, 1)] ∧
    openIssuesAt [⟨1, some 5⟩, ⟨3, none⟩] 4 = 2 ∧
    openIssuesAt [⟨1, some 5⟩, ⟨3, none⟩] 6 = 1 := by
  refine ⟨?_, sortedIssueTimes_sorted_lt,
    fun issues t => mem_sortedIssueTimes issues,
    by decide, by decide, by decide, by decide, by decide⟩
  intro issues t0 ts hsorted
  have hser : issueChartSeries issues
      = (t0 - 1, 0) :: issueWalk issues (t0 :: ts) 0 := by
    simp [issueChartSeries, hsorted]
  rw [hser, issueWalk_eq issues (t0 :: ts) [] 0 hsorted rfl]

theorem C3_issue_sweep_line_witness :
    sortedIssueTimes [⟨10, none⟩, ⟨10, some 10⟩] = 10 :: [] ∧
    issueChartSeries [⟨10, none⟩, ⟨10, some 10⟩]
      = (10 - 1, 0) :: ((10 : Int) :: []).map (fun t =>
          (t, openIssuesAt [⟨10, none⟩, ⟨10, some 10⟩] t)) :=
  ⟨by decide, C3_issue_sweep_line.1 _ 10 [] (by decide)⟩

theorem splitChar_cons_eq (c : Char) (l : List Char) :
    splitChar c (c :: l) = [] :: splitChar c l := by
  simp [splitChar]

theorem splitChar_cons_ne (c a : Char) (l : List Char) (ha : (a == c) = false) :
    splitChar c (a :: l)
      = match splitChar c l with
        | [] => [[a]]
        | h :: t => (a :: h) :: t := by
  simp [splitChar, ha]

theorem splitChar_no_sep (c : Char) :
    ∀ l : List Char, c ∉ l → splitChar c l = [l] := by
  intro l
  induction l with
  | nil => intro _; rfl
  | cons a l ih =>
    intro h
    have ha : (a == c) = false := by
      simp only [beq_eq_false_iff_ne]
      exact fun hh => h (hh ▸ List.mem_cons_self a l)
    rw [splitChar_cons_ne c a l ha, ih (fun hh => h (List.mem_cons_of_mem a hh))]

theorem splitChar_append (c : Char) (m : List Char) :
    ∀ l : List Char, c ∉ l → splitChar c (l ++ c :: m) = l :: splitChar c m := by
  intro l
  induction l with
  | nil => intro _; simpa using splitChar_cons_eq c m
  | cons a l ih =>
    intro h
    have ha : (a == c) = false := by
      simp only [beq_eq_false_iff_ne]
      exact fun hh => h (hh ▸ List.mem_cons_self a l)
    rw [List.cons_append, splitChar_cons_ne c a _ ha,
      ih (fun hh => h (List.mem_cons_of_mem a hh))]

theorem parseRepo_repoIdentifier (r : RepoRef) (h : GoodRepo r) :
    parseRepo (repoIdentifier r) = some r := by
  obtain ⟨hu, hr, hsu, hsr⟩ := h
  have hdata : (repoIdentifier r).data
      = r.username.data ++ '/' :: r.repository.data := by
    simp [repoIdentifier, String.data_append]
  have hsplit : splitChar '/' (repoIdentifier r).data
      = [r.username.data, r.repository.data] := by
    rw [hdata, splitChar_append '/' _ _ hsu, splitChar_no_sep '/' _ hsr]
  have hu2 : (r.username != "") = true := by simpa using hu
  have hr2 : (r.repository != "") = true := by simpa using hr
  simp only [parseRepo, hsplit, List.map_cons, List.map_nil]
  simp only [List.getD, List.getElem?_cons_zero, List.getElem?_cons_succ,
    Option.getD_some]
  rw [if_pos]
  · rfl
  · exact by simp [hu2, hr2]

theorem repoIdentifier_inj {r1 r2 : RepoRef} (h1 : GoodRepo r1)
    (h2 : GoodRepo r2) (h : repoIdentifier r1 = repoIdentifier r2) :
    r1 = r2 := by
  have hp := parseRepo_repoIdentifier r1 h1
  rw [h, parseRepo_repoIdentifier r2 h2] at hp
  exact (Option.some.inj hp).symm

theorem filterMap_parseRepo (ids : List String)
    (h : ∀ id ∈ ids, ∃ r, GoodRepo r ∧ repoIdentifier r = id) :
    (ids.filterMap parseRepo).map repoIdentifier = ids ∧
    ∀ r ∈ ids.filterMap parseRepo, GoodRepo r := by
  induction ids with
  | nil => exact ⟨rfl, by simp⟩
  | cons id ids ih =>
    obtain ⟨r, hg, hid⟩ := h id (List.mem_cons_self _ _)
    have hrest := ih (fun j hj => h j (List.mem_cons_of_mem _ hj))
    have hparse : parseRepo id = some r := hid ▸ parseRepo_repoIdentifier r hg
    rw [List.filterMap_cons_some hparse]
    refine ⟨?_, ?_⟩
    · rw [List.map_cons, hrest.1, hid]
    · intro x hx
      rcases List.mem_cons.mp hx with hx | hx
      · exact hx ▸ hg
      · exact hrest.2 x hx

theorem find?_mapSet_update {α : Type} (k : String) (v : α) :
    ∀ m : List (String × α),
      (m.map (fun p => if p.1 == k then (k, v) else p)).find?
          (fun q => q.1 == k)
        = (m.find? (fun q => q.1 == k)).map (fun _ => (k, v)) := by
  intro m
  induction m with
  | nil => rfl
  | cons p m ih =>
    rw [List.map_cons, List.find?_cons, List.find?_cons]
    by_cases hp : (p.1 == k) = true
    · have hik : (if p.1 == k then (k, v) else p) = (k, v) := if_pos hp
      rw [hik, hp]
      have hkk : (k == k) = true := beq_self_eq_true k
      rw [show ((k, v).1 == k) = true from hkk]
      rfl
    · have hb : (p.1 == k) = false := by simpa using hp
      have hik : (if p.1 == k then (k, v) else p) = p := if_neg hp
      rw [hik, hb]
      exact ih

theorem mapGet_mapSet_self {α : Type} (m : List (String × α)) (k : String)
    (v : α) : mapGet (mapSet m k v) k = some v := by
  unfold mapSet
  by_cases hh : mapHas m k
  · rw [if_pos hh]
    unfold mapGet
    rw [find?_mapSet_update]
    have hsome : (m.find? (fun q => q.1 == k)).isSome := by
      rw [List.find?_isSome]
      exact List.any_eq_true.mp hh
    obtain ⟨p, hp⟩ := Option.isSome_iff_exists.mp hsome
    rw [hp]
    rfl
  · rw [if_neg hh]
    unfold mapGet
    rw [List.find?_append]
    have hnone : m.find? (fun q => q.1 == k) = none := by
      rw [List.find?_eq_none]
      intro x hx hpx
      exact hh (List.any_eq_true.mpr ⟨x, hx, hpx⟩)
    rw [hnone]
    simp [List.find?_cons]

theorem mem_mapSet {α : Type} {p : String × α} (m : List (String × α))
    (k : String) (v : α) (h : p ∈ mapSet m k v) : p = (k, v) ∨ p ∈ m := by
  unfold mapSet at h
  by_cases hh : mapHas m k
  · rw [if_pos hh] at h
    obtain ⟨q, hq, hqe⟩ := List.mem_map.mp h
    by_cases hqk : (q.1 == k) = true
    · rw [if_pos hqk] at hqe
      exact Or.inl hqe.symm
    · rw [if_neg hqk] at hqe
      exact Or.inr (hqe ▸ hq)
  · rw [if_neg hh] at h
    rcases List.mem_append.mp h with h | h
    · exact Or.inr h
    · exact Or.inl (by simpa using h)

theorem mapGet_some_mem {α : Type} {m : List (String × α)} {k : String}
    {v : α} (h : mapGet m k = some v) : ∃ p ∈ m, p.2 = v := by
  unfold mapGet at h
  obtain ⟨p, hp, hv⟩ := Option.map_eq_some'.mp h
  exact ⟨p, List.mem_of_find?_eq_some hp, hv⟩

theorem zip_map_snd {α β γ : Type} (f : β → γ) :
    ∀ (l1 : List α) (l2 : List β), l1.length = l2.length →
      (l1.zip l2).map (fun pr => f pr.2) = l2.map f := by
  intro l1
  induction l1 with
  | nil =>
    intro l2 h
    cases l2 with
    | nil => rfl
    | cons b l2 => simp at h
  | cons a l1 ih =>
    intro l2 h
    cases l2 with
    | nil => simp at h
    | cons b l2 =>
      rw [List.zip_cons_cons, List.map_cons, List.map_cons,
        ih l2 (by simpa using h)]

theorem fetchDataForRepos_WF (s : EngineState) (results : List FetchPair)
    (hlen : results.length = s.repos.length)
    (hgood : ∀ r ∈ s.repos, GoodRepo r)
    (hnd : (s.repos.map repoIdentifier).Nodup)
    (hsaved : ∀ p ∈ s.savedSets, SavedOk p.2) :
    WF (fetchDataForRepos s (some results)) := by
  refine ⟨hgood, hnd, ?_, ?_, hsaved⟩
  · exact List.Perm.refl _
  · show ((((results.zip s.repos).map processResult).map
        (fun e => e.2.2.2)).map (·.identifier)).Perm (s.repos.map repoIdentifier)
    have hmap : (((results.zip s.repos).map processResult).map
          (fun e => e.2.2.2)).map (·.identifier)
        = (results.zip s.repos).map (fun pr => repoIdentifier pr.2) := by
      rw [List.map_map, List.map_map]
      exact List.map_congr_left (fun pr _ => rfl)
    rw [hmap, zip_map_snd repoIdentifier results s.repos hlen]

/-- The invariant-relevant projections of `_handleRequestSort`: repos,
summary rows and saved sets are never touched; the display order is either
untouched or the identifier projection of the stable sort of the summary
rows. -/
theorem handleRequestSort_proj (s : EngineState) (key : SortKey)
    (so : Option (List (List Int))) (io : Option (List (List IssueEvent))) :
    (handleRequestSort s key so io).state.repos = s.repos ∧
    (handleRequestSort s key so io).state.repoSummaryData = s.repoSummaryData ∧
    (handleRequestSort s key so io).state.savedSets = s.savedSets ∧
    ((handleRequestSort s key so io).state.repoOrder = s.repoOrder ∨
      (handleRequestSort s key so io).state.repoOrder
        = (s.repoSummaryData.insertionSort
            (fun a b => sortLe key (nextSortDirection s key) a b = true)).map
            (·.identifier)) := by
  cases htok : (s.githubToken == "") with
  | true =>
    cases hks : (key == SortKey.stars) with
    | true =>
      refine ⟨?_, ?_, ?_, Or.inl ?_⟩ <;> simp [handleRequestSort, htok, hks]
    | false =>
      cases hko : (key == SortKey.openIssues) with
      | true =>
        refine ⟨?_, ?_, ?_, Or.inl ?_⟩ <;>
          simp [handleRequestSort, htok, hks, hko]
      | false =>
        cases hkm : (key == SortKey.manual) with
        | true =>
          refine ⟨?_, ?_, ?_, Or.inl ?_⟩ <;>
            simp [handleRequestSort, htok, hks, hko, hkm]
        | false =>
          refine ⟨?_, ?_, ?_, Or.inr ?_⟩ <;>
            simp [handleRequestSort, htok, hks, hko, hkm, nextSortDirection]
  | false =>
    cases hkm : (key == SortKey.manual) with
    | true =>
      refine ⟨?_, ?_, ?_, Or.inl ?_⟩ <;> simp [handleRequestSort, htok, hkm]
    | false =>
      cases hks : (key == SortKey.stars) with
      | true =>
        cases hemp : ((s.repos.filter (fun repo =>
            !(mapHas s.stargazersData (repoIdentifier repo)))).isEmpty) with
        | true =>
          refine ⟨?_, ?_, ?_, Or.inr ?_⟩ <;>
            simp [handleRequestSort, htok, hkm, hks, hemp, nextSortDirection]
        | false =>
          cases so with
          | none =>
            refine ⟨?_, ?_, ?_, Or.inr ?_⟩ <;>
              simp [handleRequestSort, htok, hkm, hks, hemp, nextSortDirection]
          | some results =>
            refine ⟨?_, ?_, ?_, Or.inr ?_⟩ <;>
              simp [handleRequestSort, htok, hkm, hks, hemp, nextSortDirection]
      | false =>
        cases hko : (key == SortKey.openIssues) with
        | true =>
          cases hemp : ((s.repos.filter (fun repo =>
              !(mapHas s.issuesData (repoIdentifier repo)))).isEmpty) with
          | true =>
            refine ⟨?_, ?_, ?_, Or.inr ?_⟩ <;>
              simp [handleRequestSort, htok, hkm, hks, hko, hemp,
                nextSortDirection]
          | false =>
            cases io with
            | none =>
              refine ⟨?_, ?_, ?_, Or.inr ?_⟩ <;>
                simp [handleRequestSort, htok, hkm, hks, hko, hemp,
                  nextSortDirection]
            | some results =>
              refine ⟨?_, ?_, ?_, Or.inr ?_⟩ <;>
                simp [handleRequestSort, htok, hkm, hks, hko, hemp,
                  nextSortDirection]
        | false =>
          refine ⟨?_, ?_, ?_, Or.inr ?_⟩ <;>
            simp [handleRequestSort, htok, hkm, hks, hko, nextSortDirection]

theorem filterMap_parseRepo_map_id (l : List RepoRef)
    (h : ∀ r ∈ l, GoodRepo r) :
    (l.map repoIdentifier).filterMap parseRepo = l := by
  induction l with
  | nil => rfl
  | cons r l ih =>
    rw [List.map_cons,
      List.filterMap_cons_some
        (parseRepo_repoIdentifier r (h r (List.mem_cons_self _ _))),
      ih (fun x hx => h x (List.mem_cons_of_mem _ hx))]

theorem initialState_WF : WF initialState := by
  refine ⟨?_, ?_, ?_, ?_, ?_⟩ <;> simp [initialState, WF]

theorem map_filter_identifier (l : List RepoSummary) (id : String) :
    (l.filter (fun d => d.identifier != id)).map (·.identifier)
      = (l.map (·.identifier)).filter (fun x => x != id) := by
  rw [List.filter_map]
  rfl

theorem map_filter_repoIdentifier (l : List RepoRef) (id : String) :
    (l.filter (fun p => repoIdentifier p != id)).map repoIdentifier
      = (l.map repoIdentifier).filter (fun x => x != id) := by
  rw [List.filter_map]
  rfl

theorem step_preserves_WF (s : EngineState) (op : Op) (hwf : WF s)
    (hop : GoodOp s op) : WF (step s op) := by
  obtain ⟨hgood, hnd, hord, hsum, hsaved⟩ := hwf
  cases op with
  | submit u r outcome =>
    show WF (handleFormSubmit s u r outcome)
    unfold handleFormSubmit
    by_cases hg : (u == "" || r == "") = true
    · rw [if_pos hg]
      exact ⟨hgood, hnd, hord, hsum, hsaved⟩
    · rw [if_neg hg]
      by_cases hdup :
          (s.repos.any fun p => p.username == u && p.repository == r) = true
      · rw [if_pos hdup]
        exact ⟨hgood, hnd, hord, hsum, hsaved⟩
      · rw [if_neg hdup]
        have hgb : (u == "" || r == "") = false := by simpa using hg
        have hdb :
            (s.repos.any fun p => p.username == u && p.repository == r)
              = false := by simpa using hdup
        obtain ⟨hsu, hsr, hfok⟩ := hop hgb hdb
        obtain ⟨results, hout, hlen⟩ := hfok
        subst hout
        have hgnew : GoodRepo ⟨u, r⟩ := by
          have h1 : (u == "") = false ∧ (r == "") = false := by
            constructor <;> cases hu : (u == "") <;> cases hrr : (r == "") <;>
              simp_all
          exact ⟨by simpa using h1.1, by simpa using h1.2, hsu, hsr⟩
        apply fetchDataForRepos_WF
        · simpa using hlen
        · intro x hx
          rcases List.mem_append.mp hx with hx | hx
          · exact hgood x hx
          · simpa using (by simpa using hx : x = ⟨u, r⟩) ▸ hgnew
        · show ((s.repos ++ [(⟨u, r⟩ : RepoRef)]).map repoIdentifier).Nodup
          rw [List.map_append]
          rw [List.nodup_append]
          refine ⟨hnd, by simp, ?_⟩
          intro a ha hb
          simp only [List.map_cons, List.map_nil, List.mem_singleton] at hb
          obtain ⟨r0, hr0, hid0⟩ := List.mem_map.mp ha
          have hr0new : r0 = ⟨u, r⟩ :=
            repoIdentifier_inj (hgood r0 hr0) hgnew (by rw [hid0, hb])
          have : (s.repos.any fun p =>
              p.username == u && p.repository == r) = true := by
            refine List.any_eq_true.mpr ⟨r0, hr0, ?_⟩
            rw [hr0new]
            simp
          rw [this] at hdb
          exact Bool.true_eq_false.mp hdb
        · exact hsaved
  | remove repo =>
    show WF (handleRemoveRepo s repo)
    refine ⟨?_, ?_, ?_, ?_, hsaved⟩
    · intro x hx
      exact hgood x (List.mem_of_mem_filter hx)
    · show ((s.repos.filter fun p =>
          repoIdentifier p != repoIdentifier repo).map repoIdentifier).Nodup
      rw [map_filter_repoIdentifier]
      exact hnd.filter _
    · show (s.repoOrder.filter fun x => x != repoIdentifier repo).Perm
        ((s.repos.filter fun p =>
          repoIdentifier p != repoIdentifier repo).map repoIdentifier)
      rw [map_filter_repoIdentifier]
      exact hord.filter _
    · show ((s.repoSummaryData.filter fun d =>
          d.identifier != repoIdentifier repo).map (·.identifier)).Perm
        ((s.repos.filter fun p =>
          repoIdentifier p != repoIdentifier repo).map repoIdentifier)
      rw [map_filter_identifier, map_filter_repoIdentifier]
      exact hsum.filter _
  | requestSort key so io =>
    obtain ⟨hr1, hr2, hr3, hr4⟩ := handleRequestSort_proj s key so io
    show WF (handleRequestSort s key so io).state
    refine ⟨?_, ?_, ?_, ?_, ?_⟩
    · rw [hr1]; exact hgood
    · rw [hr1]; exact hnd
    · rcases hr4 with h | h
      · rw [h, hr1]; exact hord
      · rw [h, hr1]
        exact (List.Perm.map (fun d : RepoSummary => d.identifier)
          (List.perm_insertionSort _ _)).trans hsum
    · rw [hr2, hr1]; exact hsum
    · rw [hr3]; exact hsaved
  | manualOrder l =>
    exact ⟨hgood, hnd, hop.trans hord, hsum, hsaved⟩
  | clearAll =>
    show WF (handleClearAllRepos s)
    exact ⟨by simp [handleClearAllRepos], by simp [handleClearAllRepos],
      by simp [handleClearAllRepos], by simp [handleClearAllRepos], hsaved⟩
  | saveSet n =>
    show WF (handleSaveSetConfirm s n)
    unfold handleSaveSetConfirm
    by_cases ht : (jsTrim n == "") = true
    · rw [if_pos ht]
      exact ⟨hgood, hnd, hord, hsum, hsaved⟩
    · rw [if_neg ht]
      refine ⟨hgood, hnd, hord, hsum, ?_⟩
      intro p hp
      rcases mem_mapSet _ _ _ hp with h | h
      · rw [h]
        exact ⟨hnd, fun id hid => by
          obtain ⟨r0, hr0, hid0⟩ := List.mem_map.mp hid
          exact ⟨r0, hgood r0 hr0, hid0⟩⟩
      · exact hsaved p h
  | loadSet n outcome =>
    show WF (handleLoadSet s n outcome)
    unfold handleLoadSet
    cases hget : mapGet s.savedSets n with
    | none => exact ⟨hgood, hnd, hord, hsum, hsaved⟩
    | some ids =>
      obtain ⟨results, hout, hlen⟩ := hop ids hget
      subst hout
      obtain ⟨p, hpmem, hp2⟩ := mapGet_some_mem hget
      have hsok : SavedOk ids := hp2 ▸ hsaved p hpmem
      obtain ⟨hfm, hfg⟩ := filterMap_parseRepo ids hsok.2
      apply fetchDataForRepos_WF
      · exact hlen
      · exact hfg
      · show ((ids.filterMap parseRepo).map repoIdentifier).Nodup
        rw [hfm]
        exact hsok.1
      · exact hsaved
  | deleteSet n =>
    refine ⟨hgood, hnd, hord, hsum, ?_⟩
    intro p hp
    exact hsaved p (List.mem_of_mem_filter hp)
  | setToken tok outcome =>
    show WF (updateAuthToken s tok outcome)
    unfold updateAuthToken
    by_cases he :
        ({ s with githubToken := tok } : EngineState).repos.isEmpty = true
    · rw [if_pos he]
      exact ⟨hgood, hnd, hord, hsum, hsaved⟩
    · rw [if_neg he]
      obtain ⟨results, hout, hlen⟩ := hop (by simpa using he)
      subst hout
      exact fetchDataForRepos_WF _ results hlen hgood hnd hsaved

theorem goodTrace_WF :
    ∀ (ops : List Op) (s : EngineState), WF s → GoodTrace s ops →
      WF (ops.foldl step s) := by
  intro ops
  induction ops with
  | nil => intro s h _; exact h
  | cons op ops ih =>
    intro s hwf htr
    exact ih (step s op) (step_preserves_WF s op hwf htr.1) htr.2

/-- **C2** counterexample: adding a repo whose primary batch fetch fails
leaves the new identifier in `RepoSet` but not in `DisplayOrder` — the
catch branch of `_fetchDataForRepos` never writes `_repoOrder`, so the
claimed invariant does not cover states after a failed batch fetch. -/
theorem C2_invariant_counterexample :
    "a/b" ∈ (run [Op.submit "a" "b" none]).repos.map repoIdentifier ∧
    "a/b" ∉ (run [Op.submit "a" "b" none]).repoOrder :=
  ⟨by decide, by decide⟩

/-- **C2** (amended): in every state reachable by add-repo, remove-repo,
sort, manual-reorder, clear, save-set, load-set, delete-set and
set-credential operations in which every triggered batch fetch succeeded
(one result per repo), submitted names are non-empty and slash-free, and
every manual reorder supplied a permutation of the current display order,
the identifiers in `DisplayOrder` are exactly those of `RepoSet`, with no
loss and no duplication. -/
theorem C2_display_order_invariant (ops : List Op)
    (h : GoodTrace initialState ops) :
    (run ops).repoOrder.Perm ((run ops).repos.map repoIdentifier) ∧
    (run ops).repoOrder.Nodup := by
  have hwf := goodTrace_WF ops initialState initialState_WF h
  exact ⟨hwf.2.2.1, (hwf.2.2.1.nodup_iff).mpr hwf.2.1⟩

theorem C2_display_order_invariant_witness :
    GoodTrace initialState
      [Op.submit "a" "b" (some [⟨[], ⟨0, "t", 0, 0⟩⟩]),
        Op.manualOrder ["a/b"], Op.remove ⟨"a", "b"⟩] ∧
    ((run [Op.submit "a" "b" (some [⟨[], ⟨0, "t", 0, 0⟩⟩]),
        Op.manualOrder ["a/b"], Op.remove ⟨"a", "b"⟩]).repoOrder.Perm
      ((run [Op.submit "a" "b" (some [⟨[], ⟨0, "t", 0, 0⟩⟩]),
        Op.manualOrder ["a/b"], Op.remove ⟨"a", "b"⟩]).repos.map
          repoIdentifier) ∧
      (run [Op.submit "a" "b" (some [⟨[], ⟨0, "t", 0, 0⟩⟩]),
        Op.manualOrder ["a/b"], Op.remove ⟨"a", "b"⟩]).repoOrder.Nodup) :=
  ⟨⟨fun _ _ => ⟨by decide, by decide, ⟨[⟨[], ⟨0, "t", 0, 0⟩⟩], rfl, rfl⟩⟩,
      List.Perm.refl _, trivial, trivial⟩,
    C2_display_order_invariant _
      ⟨fun _ _ => ⟨by decide, by decide, ⟨[⟨[], ⟨0, "t", 0, 0⟩⟩], rfl, rfl⟩⟩,
        List.Perm.refl _, trivial, trivial⟩⟩

/-- **C6** counterexample: after a manual reorder, the displayed order is
`["c/d", "a/b"]`, but save-set snapshots `this._repos` (insertion order),
so save → clear → load restores `["a/b", "c/d"]`, not the displayed
order. -/
theorem C6_roundtrip_counterexample :
    (run [Op.submit "a" "b" (some [⟨[], ⟨0, "t", 0, 0⟩⟩]),
        Op.submit "c" "d" (some [⟨[], ⟨0, "t", 0, 0⟩⟩, ⟨[], ⟨0, "t", 0, 0⟩⟩]),
        Op.manualOrder ["c/d", "a/b"]]).repoOrder = ["c/d", "a/b"] ∧
    (run [Op.submit "a" "b" (some [⟨[], ⟨0, "t", 0, 0⟩⟩]),
        Op.submit "c" "d" (some [⟨[], ⟨0, "t", 0, 0⟩⟩, ⟨[], ⟨0, "t", 0, 0⟩⟩]),
        Op.manualOrder ["c/d", "a/b"], Op.saveSet "X", Op.clearAll,
        Op.loadSet "X" (some [⟨[], ⟨0, "t", 0, 0⟩⟩,
          ⟨[], ⟨0, "t", 0, 0⟩⟩])]).repoOrder = ["a/b", "c/d"] ∧
    (["a/b", "c/d"] : List String) ≠ ["c/d", "a/b"] :=
  ⟨by decide, by decide, by decide⟩

/-- **C6** (amended): save-set snapshots the `RepoSet` (insertion) order of
`this._repos`; after save(name) → clear-all → load(name) with a successful
fetch, `RepoSet` equals the repos at save time and `DisplayOrder` equals
their canonical identifiers, byte-for-byte — the RepoSet order, not the
displayed order, when the two differ (e.g. after a manual reorder). -/
theorem C6_saveSet_roundtrip (s : EngineState) (name : String)
    (hgood : ∀ r ∈ s.repos, GoodRepo r) (hname : jsTrim name ≠ "")
    (results : List FetchPair) :
    (handleLoadSet (handleClearAllRepos (handleSaveSetConfirm s name))
        (jsTrim name) (some results)).repos = s.repos ∧
    (handleLoadSet (handleClearAllRepos (handleSaveSetConfirm s name))
        (jsTrim name) (some results)).repoOrder
      = s.repos.map repoIdentifier := by
  have htb : ¬((jsTrim name == "") = true) := by simpa using hname
  have hs1 : (handleSaveSetConfirm s name).savedSets
      = mapSet s.savedSets (jsTrim name) (s.repos.map repoIdentifier) := by
    unfold handleSaveSetConfirm
    rw [if_neg htb]
  have hs2 : (handleClearAllRepos (handleSaveSetConfirm s name)).savedSets
      = mapSet s.savedSets (jsTrim name) (s.repos.map repoIdentifier) := hs1
  have hget : mapGet
      (handleClearAllRepos (handleSaveSetConfirm s name)).savedSets
      (jsTrim name) = some (s.repos.map repoIdentifier) := by
    rw [hs2]
    exact mapGet_mapSet_self _ _ _
  constructor
  · show (handleLoadSet _ _ _).repos = s.repos
    unfold handleLoadSet
    rw [hget]
    show (s.repos.map repoIdentifier).filterMap parseRepo = s.repos
    exact filterMap_parseRepo_map_id s.repos hgood
  · show (handleLoadSet _ _ _).repoOrder = s.repos.map repoIdentifier
    unfold handleLoadSet
    rw [hget]
    show ((s.repos.map repoIdentifier).filterMap parseRepo).map repoIdentifier
      = s.repos.map repoIdentifier
    rw [filterMap_parseRepo_map_id s.repos hgood]

theorem C6_saveSet_roundtrip_witness :
    (∀ r ∈ (run [Op.submit "a" "b" (some [⟨[], ⟨0, "t", 0, 0⟩⟩])]).repos,
      GoodRepo r) ∧
    jsTrim "X" ≠ "" ∧
    ((handleLoadSet (handleClearAllRepos (handleSaveSetConfirm
        (run [Op.submit "a" "b" (some [⟨[], ⟨0, "t", 0, 0⟩⟩])]) "X"))
        (jsTrim "X") (some [⟨[], ⟨0, "t", 0, 0⟩⟩])).repos
      = (run [Op.submit "a" "b" (some [⟨[], ⟨0, "t", 0, 0⟩⟩])]).repos ∧
      (handleLoadSet (handleClearAllRepos (handleSaveSetConfirm
        (run [Op.submit "a" "b" (some [⟨[], ⟨0, "t", 0, 0⟩⟩])]) "X"))
        (jsTrim "X") (some [⟨[], ⟨0, "t", 0, 0⟩⟩])).repoOrder
      = (run [Op.submit "a" "b" (some [⟨[], ⟨0, "t", 0, 0⟩⟩])]).repos.map
          repoIdentifier) :=
  ⟨by decide, by decide,
    C6_saveSet_roundtrip _ "X" (by decide) (by decide) _⟩

end GRS
